import Mathlib

/-!
Verification of the pipeline configuration validation engine
(`pipeline/models.py`, `pipeline/validation.py`, `pipeline/legacy.py`).

The Python sources are embedded shallowly: strings are Lean `String`s
manipulated as `List Char`, Python `float` schema versions are `Rat`
(every version value exercised here is a small decimal, where `float`
arithmetic is exact), fallible code returns `Except String`, and the
ordered dictionaries of the source are association lists preserving
insertion order.
-/

/-! ## Python `shlex.split`

Faithful embedding of the CPython function `shlex.split` in POSIX mode with
`whitespace_split=True` and no comment characters, which is how
`pipeline/models.py` and `pipeline/legacy.py` invoke it.  The lexer is a
state machine over characters: whitespace is exactly `' '`, `'\t'`,
`'\r'`, `'\n'`; the quote characters are the single and double quote;
the escape character is the backslash, which inside quotes is honoured
only inside double quotes (the CPython `escapedquotes` set).  An unterminated
quote or a trailing escape raises `ValueError`, embedded as
`Except.error` with the CPython message. -/

def squote : Char := Char.ofNat 39

def dquote : Char := Char.ofNat 34

def isShlexWhitespace (c : Char) : Bool :=
  c = ' ' || c = '\t' || c = '\r' || c = '\n'

def isShlexQuote (c : Char) : Bool :=
  c = squote || c = dquote

/-- Lexer states of `shlex.read_token`: between tokens (`ws`), inside an
unquoted word (`word`), inside a quoted section opened by the given
quote character (`quote`), or just after an escape character
(`escape`), remembering the quote context the escape occurred in
(`none` = outside quotes). -/
inductive ShlexState where
  | ws : ShlexState
  | word : ShlexState
  | quote (q : Char) : ShlexState
  | escape (inQuote : Option Char) : ShlexState

/-- One pass of `shlex.read_token`, iterated over the whole input.
`quoted` is the per-token `quoted` flag of CPython (a quoted empty token is
still emitted), `token` the characters accumulated for the current
token, `acc` the tokens already emitted. -/
def shlexGo : List Char → ShlexState → Bool → List Char → List String →
    Except String (List String)
  | [], .ws, _, _, acc => .ok acc
  | [], .word, quoted, token, acc =>
      if token ≠ [] ∨ quoted then .ok (acc ++ [⟨token⟩]) else .ok acc
  | [], .quote _, _, _, _ => .error "No closing quotation"
  | [], .escape _, _, _, _ => .error "No escaped character"
  | c :: cs, .ws, _, _, acc =>
      if isShlexWhitespace c then shlexGo cs .ws false [] acc
      else if c = '\\' then shlexGo cs (.escape none) false [] acc
      else if isShlexQuote c then shlexGo cs (.quote c) false [] acc
      else shlexGo cs .word false [c] acc
  | c :: cs, .word, quoted, token, acc =>
      if isShlexWhitespace c then
        if token ≠ [] ∨ quoted then shlexGo cs .ws false [] (acc ++ [⟨token⟩])
        else shlexGo cs .ws false [] acc
      else if isShlexQuote c then shlexGo cs (.quote c) quoted token acc
      else if c = '\\' then shlexGo cs (.escape none) quoted token acc
      else shlexGo cs .word quoted (token ++ [c]) acc
  | c :: cs, .quote q, _, token, acc =>
      if c = q then shlexGo cs .word true token acc
      else if q = dquote ∧ c = '\\' then shlexGo cs (.escape (some q)) true token acc
      else shlexGo cs (.quote q) true (token ++ [c]) acc
  | c :: cs, .escape esc, quoted, token, acc =>
      match esc with
      | some q =>
          -- in POSIX shells, only the quote itself or the escape
          -- character may be escaped inside quotes
          if c ≠ '\\' ∧ c ≠ q then shlexGo cs (.quote q) quoted (token ++ ['\\', c]) acc
          else shlexGo cs (.quote q) quoted (token ++ [c]) acc
      | none => shlexGo cs .word quoted (token ++ [c]) acc

/-- Python `shlex.split(s)` (POSIX mode, `whitespace_split=True`). -/
def shlex_split (s : String) : Except String (List String) :=
  shlexGo s.toList .ws false [] []

/-! ## Python `str.split(sep)` and `str.partition(sep)` helpers

`splitc sep l` returns the Python value `l.split(sep)` for a one-character
separator, as the (always present) first field paired with the
remaining fields. -/

def splitc (sep : Char) : List Char → List Char × List (List Char)
  | [] => ([], [])
  | c :: cs =>
      let r := splitc sep cs
      if c = sep then ([], r.1 :: r.2) else (c :: r.1, r.2)

/-! ## `posixpath.normpath`

Direct embedding of the CPython function `posixpath.normpath` over characters. -/

/-- Number of leading slashes `posixpath.normpath` preserves: two if the
path starts with exactly two slashes, one if it starts with a slash,
zero otherwise. -/
def initialSlashCount : List Char → Nat
  | '/' :: '/' :: '/' :: _ => 1
  | '/' :: '/' :: _ => 2
  | '/' :: _ => 1
  | _ => 0

/-- The component-filtering fold of `posixpath.normpath`: empty and `.`
components disappear; `..` is kept when the path is relative and no
component precedes it, or when the previous kept component is itself
`..`; otherwise it pops the previous component. -/
def normpathStep (slashes : Nat) (acc : List (List Char)) (comp : List Char) :
    List (List Char) :=
  if comp = [] ∨ comp = ['.'] then acc
  else if comp ≠ ['.', '.'] ∨ (slashes = 0 ∧ acc = []) ∨ acc.getLast? = some ['.', '.'] then
    acc ++ [comp]
  else if acc ≠ [] then acc.dropLast
  else acc

def normpathList (path : List Char) : List Char :=
  if path = [] then ['.']
  else
    let slashes := initialSlashCount path
    let comps := (splitc '/' path).1 :: (splitc '/' path).2
    let newComps := comps.foldl (normpathStep slashes) []
    let joined := List.replicate slashes '/' ++ List.intercalate ['/'] newComps
    if joined = [] then ['.'] else joined

/-- Python `posixpath.normpath`. -/
def normpath (path : String) : String := ⟨normpathList path.toList⟩

/-! ## Glob pattern validation (`pipeline/validation.py`, `assert_valid_glob_pattern`)

Each check of the source is a named boolean predicate paired with the
message of the `InvalidPatternError` it raises, so that the sequential
checker below can be compared with the ordered rule table
`globRules`. -/

/-- Python `s.startswith(pre)` (kernel-evaluable, unlike
`String.startsWith`). -/
def pyStartsWith (s pre : String) : Bool :=
  List.isPrefixOf pre.toList s.toList

/-- Python `sub in s` (substring containment). -/
def strContains (s sub : String) : Bool :=
  decide (sub.toList <:+: s.toList)

/-- Python `s.endswith("/")`. -/
def endsWithSlash (s : String) : Bool :=
  s.toList.getLast? = some '/'

/-- Python `PurePosixPath(p).is_absolute()`: a POSIX path is absolute iff it
has a leading slash. -/
def purePosixPathIsAbsolute (p : String) : Bool :=
  pyStartsWith p "/"

/-- Python `PureWindowsPath(p).is_absolute()`: absolute iff the path has both a
drive and a root.  For the slash-separated strings this validator can
reach (patterns containing a backslash are rejected by the first check
before this one is evaluated), that means an ASCII drive letter,
a colon, and a slash; UNC absolute forms all start with two slashes and
are already covered by the POSIX check that the source evaluates first
in the same disjunction. -/
def pureWindowsPathIsAbsolute (p : String) : Bool :=
  match p.toList with
  | c :: ':' :: '/' :: _ => (c ≥ 'a' ∧ c ≤ 'z') ∨ (c ≥ 'A' ∧ c ≤ 'Z')
  | _ => false

def containsBackslash (p : String) : Bool := strContains p "\\"

def containsDoubleStar (p : String) : Bool := strContains p "**"

def containsQuestionMark (p : String) : Bool := strContains p "?"

def containsOpenBracket (p : String) : Bool := strContains p "["

def notInNormalForm (p : String) : Bool := normpath p ≠ p

def isMetadataPath (p : String) : Bool :=
  p = "metadata" ∨ pyStartsWith p "metadata/"

def isAbsolutePath (p : String) : Bool :=
  purePosixPathIsAbsolute p || pureWindowsPathIsAbsolute p

def backslashMsg : String := "contains back slashes (use forward slashes only)"

/-- Message for the unsupported-wildcard check, parameterized by the
offending token exactly as the f-string of the source. -/
def wildcardMsg (expr : String) : String :=
  "contains \x27" ++ expr ++ "\x27 (only the * wildcard character is supported)"

def trailingSlashMsg : String := "looks like a directory (only files should be specified)"

def normalFormMsg : String :=
  "is not in standard form (contains double slashes or \x27..\x27 elements)"

def metadataMsg : String := "should not include the metadata directory"

def absolutePathMsg : String := "is an absolute path"

/-- Function `assert_valid_glob_pattern` from `pipeline/validation.py`: the
checks run in source order and the first failing check raises.  The
wildcard loop iterates over the tuple `("**", "?", "[")` in order. -/
def assert_valid_glob_pattern (pattern : String) : Except String Unit :=
  if containsBackslash pattern then .error backslashMsg
  else
    match (["**", "?", "["].find? fun expr => strContains pattern expr) with
    | some expr => .error (wildcardMsg expr)
    | none =>
      if endsWithSlash pattern then .error trailingSlashMsg
      else if notInNormalForm pattern then .error normalFormMsg
      else if isMetadataPath pattern then .error metadataMsg
      else if isAbsolutePath pattern then .error absolutePathMsg
      else .ok ()

/-- The ordered rule table of the validator, as the specification
describes it: each rule is a violation predicate together with the
reason reported for it, and rules are tried in this fixed order with
the first violated rule determining the reported reason. -/
def globRules : List ((String → Bool) × (String → String)) :=
  [ (containsBackslash, fun _ => backslashMsg),
    (containsDoubleStar, fun _ => wildcardMsg "**"),
    (containsQuestionMark, fun _ => wildcardMsg "?"),
    (containsOpenBracket, fun _ => wildcardMsg "["),
    (endsWithSlash, fun _ => trailingSlashMsg),
    (notInNormalForm, fun _ => normalFormMsg),
    (isMetadataPath, fun _ => metadataMsg),
    (isAbsolutePath, fun _ => absolutePathMsg) ]

/-- The reason of the first violated rule, if any rule is violated. -/
def firstGlobViolation (p : String) : Option String :=
  (globRules.find? fun rule => rule.1 p).map fun rule => rule.2 p

/-- The bad shapes enumerated by the uniqueness claim about pattern
validation: backslashes, unsupported wildcard tokens, a trailing
separator, a pattern differing from its normalized form (doubled
separators or removable `..` elements), or an absolute path under
either convention. -/
def globTrigger (p : String) : Bool :=
  containsBackslash p || containsDoubleStar p || containsQuestionMark p ||
    containsOpenBracket p || endsWithSlash p || notInNormalForm p ||
    isAbsolutePath p

/-! ## The `Command` model (`pipeline/models.py`)

The namespace `models` mirrors the `pipeline/models.py` module (the
bare name `Action` is taken by Mathlib).

`Command` stores only the original run string; `parts`, `name`,
`version` and `args` are derived properties.  The properties raise in
Python when the string does not tokenize, when there is no first token,
or (for `version`) when the first token has no colon; those cases are
embedded as `Except.error`/`none`. -/

namespace models

structure Command where
  raw : String
  deriving DecidableEq, Repr

/-- Property `Command.parts`: `shlex.split(self.raw)`. -/
def Command.parts (c : Command) : Except String (List String) :=
  shlex_split c.raw

/-- Property `Command.name`: `self.parts[0].split(":")[0]`. -/
def Command.name (c : Command) : Option String :=
  match shlex_split c.raw with
  | .ok (t :: _) => some ⟨(splitc ':' t.toList).1⟩
  | _ => none

/-- Property `Command.version`: `self.parts[0].split(":")[1]` (an `IndexError`
when the first token has no colon is embedded as `none`). -/
def Command.version (c : Command) : Option String :=
  match shlex_split c.raw with
  | .ok (t :: _) => ((splitc ':' t.toList).2.head?).map fun l => (⟨l⟩ : String)
  | _ => none

/-- Property `Command.args`: `" ".join(self.parts[1:])`. -/
def Command.args (c : Command) : Option String :=
  match shlex_split c.raw with
  | .ok ps => some (String.intercalate " " (ps.drop 1))
  | _ => none

/-- The `__hash__` of the frozen pydantic model: a function of the
field tuple, which for `Command` is the raw string alone. -/
def Command.hashValue (c : Command) : UInt64 :=
  c.raw.hash

/-! ## The `Outputs` model

The three sensitivity tiers are optional mappings from output id to
filename pattern; `none` embeds the pydantic notion of a field that was not set.  The raw
input mappings preserve insertion order as association lists. -/

structure Outputs where
  highly_sensitive : Option (List (String × String))
  moderately_sensitive : Option (List (String × String))
  minimally_sensitive : Option (List (String × String))
  deriving DecidableEq, Repr

/-- Python `self.dict(exclude_unset=True).values()`: the populated tiers, in
field declaration order. -/
def Outputs.setGroups (o : Outputs) : List (List (String × String)) :=
  [o.highly_sensitive, o.moderately_sensitive, o.minimally_sensitive].filterMap id

/-- Method `Outputs.__len__`: the number of populated tiers (not the number of
files). -/
def Outputs.len (o : Outputs) : Nat :=
  o.setGroups.length

/-- All declared filenames, in tier order then insertion order. -/
def Outputs.setFilenames (o : Outputs) : List String :=
  (o.setGroups.map fun g => g.map Prod.snd).flatten

/-- Validator `Outputs.validate_output_filenames_are_valid` (a `mode="before"`
validator): every filename must pass `assert_valid_glob_pattern`, and a
failure is re-raised as `Output path ... is not permitted: ...`. -/
def validate_output_filenames_are_valid (o : Outputs) : Except String Outputs :=
  match (o.setFilenames.filterMap fun f =>
      match assert_valid_glob_pattern f with
      | .error e => some ("Output path " ++ f ++ " is not permitted: " ++ e)
      | .ok () => none).head? with
  | some msg => .error msg
  | none => .ok o

/-- Validator `Outputs.at_least_one_output` (a `mode="after"` validator): at
least one tier must have been provided in the input. -/
def at_least_one_output (o : Outputs) : Except String Outputs :=
  if o.highly_sensitive = none ∧ o.moderately_sensitive = none ∧
      o.minimally_sensitive = none then
    .error "must specify at least one output of: highly_sensitive, moderately_sensitive, minimally_sensitive"
  else .ok o

/-- Construction of `Outputs`: the before-validator runs on the raw
mapping, then the after-validator on the model. -/
def buildOutputs (o : Outputs) : Except String Outputs := do
  let o ← validate_output_filenames_are_valid o
  at_least_one_output o

/-! ## The `Action` model -/

structure Action where
  config : Option (List (String × String))
  run : Command
  needs : List String
  outputs : Outputs
  dummy_data_file : Option String
  deriving DecidableEq, Repr

/-- Validator `Action.parse_run_string` (a `mode="before"` validator on `run`):
tokenize, then `partition` the first token on `:`; an empty version
part is an error naming the image.  An empty token list makes
`parts[0]` raise `IndexError`, embedded with the CPython message. -/
def parse_run_string (run : String) : Except String Command := do
  let parts ← shlex_split run
  match parts with
  | [] => .error "IndexError: list index out of range"
  | p0 :: _ =>
    let name : String := ⟨(splitc ':' p0.toList).1⟩
    let version : String :=
      if (splitc ':' p0.toList).2 = [] then ""
      else ⟨(p0.toList.dropWhile fun ch => ch ≠ ':').drop 1⟩
    if version = "" then
      .error (name ++ " must have a version specified (e.g. " ++ name ++ ":0.5.2)")
    else pure ⟨run⟩

/-- Raw (parsed-YAML) form of one action.  `config` and
`dummy_data_file` take no part in validation in `pipeline/models.py`;
the raw outputs mapping is embedded in its typed shape (tier key
present iff set), which is what every validator observes. -/
structure RawAction where
  config : Option (List (String × String))
  run : String
  needs : List String
  outputs : Outputs
  dummy_data_file : Option String
  deriving Repr

/-- Field-order construction of an `Action`: `run` is parsed before
`outputs` is validated, matching the pydantic field declaration order. -/
def buildAction (ra : RawAction) : Except String Action := do
  let cmd ← parse_run_string ra.run
  let outs ← buildOutputs ra.outputs
  pure ⟨ra.config, cmd, ra.needs, outs, ra.dummy_data_file⟩

end models

/-! ## Feature flags (`pipeline/features.py`)

Modelled from the spec: `pipeline/features.py` is imported by
`pipeline/models.py` but is absent from the source snapshot.  Per the
spec, the resolver is a pure function from the numeric version to a
fixed set of boolean capability flags, each switching at a fixed
threshold version, and it reports an error naming the latest known
version when asked about a higher one.  The thresholds (output-path
uniqueness from version 2, the expectations requirement from version 3
until it becomes obsolete at version 4, legacy-extractor withdrawal
from version 4, latest known version 4) are those that the test suite of the repository (`tests/test_features.py`) pins down. -/

namespace features

structure FeatureFlags where
  UNIQUE_OUTPUT_PATH : Bool
  EXPECTATIONS_POPULATION : Bool
  REMOVE_SUPPORT_FOR_COHORT_EXTRACTOR : Bool
  deriving DecidableEq, Repr

def LATEST_VERSION : Rat := 4

/-- Modelled from the spec (see the section comment): version-to-flags
resolution. -/
def get_feature_flags_for_version (version : Rat) : Except String FeatureFlags :=
  if version > LATEST_VERSION then
    .error ("The latest version is v" ++ toString LATEST_VERSION ++ ", but got v"
      ++ toString version)
  else
    .ok { UNIQUE_OUTPUT_PATH := decide (2 ≤ version),
          EXPECTATIONS_POPULATION := decide (3 ≤ version ∧ version < 4),
          REMOVE_SUPPORT_FOR_COHORT_EXTRACTOR := decide (4 ≤ version) }

end features

/-- The reserved sentinel action id meaning "run every action"
(`RUN_ALL_COMMAND` in `pipeline/legacy.py`; `pipeline/models.py`
imports the same constant from the absent `pipeline/constants.py`). -/
def RUN_ALL_COMMAND : String := "run_all"

/-! ## The extraction-family regular expressions (`pipeline/models.py`)

`cohortextractor_pat = re.compile(r"cohortextractor:\S+ generate_cohort")`
and `databuilder_pat = re.compile(r"databuilder|ehrql:\S+ generate[-_]dataset")`
are applied with `re.match`, i.e. anchored at the start of the raw run
string with an arbitrary continuation.  `\S+` is greedy over
non-whitespace, so it matches exactly the maximal non-whitespace run,
which must then be followed by the literal remainder.  Note the
alternation in `databuilder_pat` binds loosely: any string starting
with `databuilder` matches. -/

/-- Python regex whitespace (`\s`) over the ASCII range the inputs use. -/
def isRegexSpace (c : Char) : Bool :=
  c = ' ' || c = '\t' || c = '\n' || c = '\r' || c = '\x0b' || c = '\x0c'

namespace models

/-- Whether `cohortextractor_pat` matches the raw run string. -/
def cohortextractor_pat (s : String) : Bool :=
  if pyStartsWith s "cohortextractor:" then
    let t := s.toList.drop 16
    let w := t.takeWhile fun c => !isRegexSpace c
    w ≠ [] ∧ List.isPrefixOf " generate_cohort".toList (t.drop w.length)
  else false

/-- Whether `databuilder_pat` matches the raw run string. -/
def databuilder_pat (s : String) : Bool :=
  pyStartsWith s "databuilder" ||
    if pyStartsWith s "ehrql:" then
      let t := s.toList.drop 6
      let w := t.takeWhile fun c => !isRegexSpace c
      w ≠ [] ∧ (List.isPrefixOf " generate-dataset".toList (t.drop w.length) ∨
        List.isPrefixOf " generate_dataset".toList (t.drop w.length))
    else false

end models

/-! ## Extraction-family output validators (`pipeline/validation.py`)

Modelled from the spec: `validate_cohortextractor_outputs` and
`validate_databuilder_outputs` are imported by `pipeline/models.py`
from `pipeline/validation.py` but are absent from that file in the
source snapshot.  Per the spec, the legacy single-output extraction
family requires exactly one output (with the length semantics of the
`Outputs` model, i.e. the count of populated sensitivity tiers, which
is what the spec says the one-output checks use), naming the action and
the actual count; the dataset-generation family requires an `--output`
argument matching the declared output, and reports an action that
declares no resolvable output. -/

namespace validation

/-- Modelled from the spec (see the section comment): the legacy
single-output extraction family check. -/
def validate_cohortextractor_outputs (action_id : String) (action : models.Action) :
    Except String Unit :=
  if action.outputs.len ≠ 1 then
    .error ("A `generate_cohort` action must have exactly one output; "
      ++ action_id ++ " had " ++ toString action.outputs.len)
  else .ok ()

/-- The value of an `--output`/`--output=` argument, if present. -/
def outputArgValue : List String → Option String
  | [] => none
  | a :: rest =>
      if a = "--output" then rest.head?
      else if pyStartsWith a "--output=" then some ⟨a.toList.drop 9⟩
      else outputArgValue rest

/-- Modelled from the spec (see the section comment): the
dataset-generation family check. -/
def validate_databuilder_outputs (action_id : String) (action : models.Action) :
    Except String Unit :=
  if action.outputs.len ≠ 1 then
    .error ("A `generate_dataset` action must have exactly one output; "
      ++ action_id ++ " had " ++ toString action.outputs.len)
  else
    match action.run.parts with
    | .error e => .error e
    | .ok ps =>
      match outputArgValue (ps.drop 1) with
      | some out =>
          if action.outputs.setFilenames.head? = some out then .ok ()
          else .error "--output in run command and outputs must match"
      | none =>
          .error ("`" ++ action_id ++ "` action does not provide an `--output` "
            ++ "argument specifying where the results should be stored")

end validation

namespace models

/-! ## The `Expectations` and `Pipeline` models (`pipeline/models.py`) -/

structure Expectations where
  population_size : Int
  deriving DecidableEq, Repr

structure Pipeline where
  version : Rat
  expectations : Expectations
  actions : List (String × Action)
  deriving DecidableEq, Repr

/-- Property `Pipeline.all_actions`: all action ids except the reserved
`run_all` sentinel, in declaration order. -/
def Pipeline.all_actions (p : Pipeline) : List String :=
  (p.actions.map Prod.fst).filter fun a => a ≠ RUN_ALL_COMMAND

/-- All output filenames of the pipeline, in action order, tier order,
then insertion order — the iteration order of
`validate_outputs_per_version`. -/
def Pipeline.outputFiles (p : Pipeline) : List String :=
  (p.actions.map fun x => x.2.outputs.setFilenames).flatten

/-- The loop body of `Pipeline.validate_actions`: each action whose raw
run string matches an extraction-family pattern is checked by the
corresponding validator (the patterns are mutually exclusive; the
source iterates the validator dictionary in insertion order). -/
def validateActionsGo : List (String × Action) → Except String Unit
  | [] => .ok ()
  | (action_id, config) :: rest => do
      if cohortextractor_pat config.run.raw then
        validation.validate_cohortextractor_outputs action_id config
      else pure ()
      if databuilder_pat config.run.raw then
        validation.validate_databuilder_outputs action_id config
      else pure ()
      validateActionsGo rest

/-- Validator `Pipeline.validate_actions` (a `mode="after"` validator). -/
def validate_actions (p : Pipeline) : Except String Pipeline :=
  (validateActionsGo p.actions).map fun _ => p

/-- Raw form of the `expectations` section: absent, present without a
`population_size` key, or present with one.  Other keys of the section
play no role in `pipeline/models.py`. -/
inductive ExpSection where
  | absent : ExpSection
  | presentWithoutPopulation : ExpSection
  | present (population_size : Int) : ExpSection
  deriving DecidableEq, Repr

/-- Validator `Pipeline.validate_expectations_per_version` (a `mode="before"`
validator).  When the version key is missing the check defers to the
version validators (`float` of a missing value raises and the validator
returns the values unchanged); below the expectations threshold (and
again from the version at which expectations are obsolete) the section
is silently replaced by the default population size 1000; otherwise the
section and its `population_size` key must exist. -/
def validate_expectations_per_version (version : Option Rat) (e : ExpSection) :
    Except String ExpSection := do
  match version with
  | none => pure e
  | some v =>
    let feat ← features.get_feature_flags_for_version v
    if !feat.EXPECTATIONS_POPULATION then
      pure (.present 1000)
    else
      match e with
      | .absent => .error "Project must include `expectations` section"
      | .presentWithoutPopulation =>
          .error "Project `expectations` section must include `population_size` section"
      | .present pop => pure (.present pop)

/-- The duplicate scan of `Pipeline.validate_outputs_per_version`:
`seen_files` grows filename by filename and the first filename already
seen raises. -/
def seenFilesGo : List String → List String → Except String Unit
  | [], _ => .ok ()
  | f :: rest, seen =>
      if f ∈ seen then .error ("Output path " ++ f ++ " is not unique")
      else seenFilesGo rest (seen ++ [f])

/-- Validator `Pipeline.validate_outputs_per_version` (a `mode="after"`
validator): output filenames must be globally unique from the version
at which `UNIQUE_OUTPUT_PATH` switches on. -/
def validate_outputs_per_version (p : Pipeline) : Except String Pipeline := do
  let feat ← features.get_feature_flags_for_version p.version
  if !feat.UNIQUE_OUTPUT_PATH then pure p
  else do
    let _ ← seenFilesGo p.outputFiles []
    pure p

/-- Validator `Pipeline.validate_actions_run` (a `mode="before"` validator): a
present-but-empty `run` key is rejected naming the action. -/
def validate_actions_run : List (String × RawAction) → Except String Unit
  | [] => .ok ()
  | (action_id, config) :: rest =>
      if config.run = "" then
        .error ("run must have a value, " ++ action_id ++ " has an empty run key")
      else validate_actions_run rest

/-- The scan of `Pipeline.validate_unique_commands`: `seen` is the
`defaultdict(list)` keyed by `Command` (whose equality and hash are
those of the raw string), mapping each command to the actions that
declared it; the first action whose command is already a key raises,
naming that action and the earlier users joined by `" ,"`. -/
def uniqueCommandsGo : List (String × Action) → List (String × List String) →
    Except String Unit
  | [], _ => .ok ()
  | (name, config) :: rest, seen =>
      match seen.find? fun bucket => bucket.1 = config.run.raw with
      | some bucket =>
          .error ("Action " ++ name ++ " has the same \x27run\x27 command as other actions: "
            ++ String.intercalate " ," bucket.2)
      | none => uniqueCommandsGo rest (seen ++ [(config.run.raw, [name])])

/-- Validator `Pipeline.validate_unique_commands` (a field validator on
`actions`). -/
def validate_unique_commands (actions : List (String × Action)) :
    Except String (List (String × Action)) :=
  (uniqueCommandsGo actions []).map fun _ => actions

/-- Validator `Pipeline.validate_needs_are_comma_delimited` (a field validator on
`actions`): a single `needs` entry containing a space is reported as a
likely missing comma; all offending actions and entries are listed. -/
def validate_needs_are_comma_delimited (actions : List (String × Action)) :
    Except String (List (String × Action)) :=
  let space_delimited := actions.filterMap fun x =>
    let incorrect := x.2.needs.filter fun dep => strContains dep " "
    if incorrect ≠ [] then some (x.1, incorrect) else none
  if space_delimited = [] then .ok actions
  else
    .error (String.intercalate "\n"
      ("`needs` actions should be separated with commas. The following actions need fixing:"
        :: (space_delimited.map fun y =>
              ("Action: " ++ y.1) :: y.2.map fun need => " - " ++ need).flatten))

/-- Validator `Pipeline.validate_needs_exist` (a field validator on `actions`):
every `needs` entry must be a key of the action mapping; all failing
actions are listed with their unknown entries.  The source subtracts
Python sets, whose iteration order in the message is
hash-determined; the message here lists the unknown entries of each action
deduplicated in first-occurrence order, which no theorem below relies
on. -/
def validate_needs_exist (actions : List (String × Action)) :
    Except String (List (String × Action)) :=
  let missing := actions.filterMap fun x =>
    let unknown := (x.2.needs.filter fun dep => !(actions.any fun y => y.1 = dep)).dedup
    if unknown ≠ [] then some (x.1, unknown) else none
  if missing = [] then .ok actions
  else
    .error (String.intercalate "\n"
      ("One or more actions is referencing unknown actions in its needs list:"
        :: (missing.map fun y =>
              ("Action: " ++ y.1) :: y.2.map fun need => " - " ++ need).flatten))

/-- Raw (parsed-YAML) form of a whole pipeline document.  A `version`
key holding a numeric value is embedded as `some`; an absent key as
`none` (a present non-numeric value is rejected by
`validate_version_value`, a path no claim exercises and which this
embedding does not represent). -/
structure RawPipeline where
  version : Option Rat
  expectations : ExpSection
  actions : List (String × RawAction)
  deriving Repr

/-- Validator `Pipeline.validate_version_exists` (a `mode="before"` validator). -/
def validate_version_exists (rp : RawPipeline) : Except String Unit :=
  if rp.version.isSome then .ok ()
  else
    .error ("Project file must have a `version` attribute specifying which "
      ++ "version of the project configuration format it uses (current "
      ++ "latest version is " ++ toString features.LATEST_VERSION ++ ")")

def buildActionsGo : List (String × RawAction) → Except String (List (String × Action))
  | [] => .ok []
  | (n, ra) :: rest => do
      let a ← buildAction ra
      let others ← buildActionsGo rest
      pure ((n, a) :: others)

/-- Construction of a validated `Pipeline` from a raw document,
`Pipeline(**data)`: the `mode="before"` model validators run first
(pydantic v2 calls them in reverse definition order), then field
validation in declaration order (which constructs every `Action` and
runs the three field validators on `actions` in definition order), then
the `mode="after"` model validators in definition order.  Pydantic
collects errors per field where this embedding short-circuits at the
first error; every theorem below evaluates documents with at most one
failing check, where the behaviours agree. -/
def buildPipeline (rp : RawPipeline) : Except String Pipeline := do
  let _ ← validate_version_exists rp
  let _ ← validate_actions_run rp.actions
  let exp ← validate_expectations_per_version rp.version rp.expectations
  let version ← match rp.version with
    | some v => pure v
    | none => .error ("`version` must be a number between 1 and "
        ++ toString features.LATEST_VERSION)
  let expectations ← match exp with
    | .present pop => pure (⟨pop⟩ : Expectations)
    | _ => .error "Field required"
  let actions ← buildActionsGo rp.actions
  let actions ← validate_unique_commands actions
  let actions ← validate_needs_are_comma_delimited actions
  let actions ← validate_needs_exist actions
  let p : Pipeline := ⟨version, expectations, actions⟩
  let p ← validate_actions p
  validate_outputs_per_version p

end models

/-! ## `pipeline/legacy.py`: `validate_project_and_set_defaults`

The project dictionary it receives is the `dict(exclude_unset=True)`
serialization of a `Pipeline`: each action holds a serialized run
command (whose `run` key carries the original string handed to
`shlex.split`) and its outputs as a mapping from populated tier name to
the per-tier output mapping.  Only the pieces the function reads are
embedded. -/

namespace legacy

structure ProjAction where
  run : String
  needs : List String
  outputs : List (String × List (String × String))
  deriving DecidableEq, Repr

structure Project where
  actions : List (String × ProjAction)
  deriving DecidableEq, Repr

/-- Total number of declared output files of one serialized action,
across all sensitivity tiers (this is not what `len` of the outputs
mapping returns). -/
def ProjAction.totalOutputFiles (ac : ProjAction) : Nat :=
  (ac.outputs.map fun g => g.2.length).sum

/-- Function `is_generate_cohort_command` from `pipeline/legacy.py`. -/
def is_generate_cohort_command (args : List String) (require_version : Option Nat) :
    Bool :=
  let version_found : Option Nat :=
    if args.length > 1 ∧
        (args.get? 1 = some "generate_cohort" ∨ args.get? 1 = some "generate_dataset") then
      if pyStartsWith (args.headD "") "cohortextractor:" then some 1
      else if pyStartsWith (args.headD "") "cohortextractor-v2:" ∨
          pyStartsWith (args.headD "") "databuilder:" then some 2
      else none
    else none
  match require_version with
  | none => version_found.isSome
  | some rv => version_found = some rv

/-- The loop of `validate_project_and_set_defaults`: any action whose
run command `is_generate_cohort_command` must have a length-one outputs
mapping (one populated tier); the `ValueError` a malformed run string
raises in `shlex.split` propagates. -/
def validateProjectGo : List (String × legacy.ProjAction) → Except String Unit
  | [] => .ok ()
  | (action_id, action_config) :: rest => do
      let args ← shlex_split action_config.run
      if is_generate_cohort_command args none ∧ action_config.outputs.length ≠ 1 then
        .error ("A `generate_cohort` action must have exactly one output; "
          ++ action_id ++ " had " ++ toString action_config.outputs.length)
      else validateProjectGo rest

/-- Function `validate_project_and_set_defaults` from `pipeline/legacy.py` (the
version in this snapshot checks only the `generate_cohort` output rule and
returns the project unchanged). -/
def validate_project_and_set_defaults (project : Project) : Except String Project :=
  (validateProjectGo project.actions).map fun _ => project

end legacy

/-! ## Concrete documents and fixtures used by the theorems below -/

namespace models

/-- A version-4 document whose single action runs the legacy extraction
tool (the scenario of `tests/test_models.py::
test_cohortextractor_actions_not_used_after_v3`). -/
def cohortextractorV4Doc : RawPipeline :=
  { version := some 4,
    expectations := .absent,
    actions := [("generate_cohort",
      { config := none,
        run := "cohortextractor:latest generate_cohort",
        needs := [],
        outputs := { highly_sensitive := some [("cohort", "output/input.csv")],
                     moderately_sensitive := none,
                     minimally_sensitive := none },
        dummy_data_file := none })] }

/-- A version-4 document that still carries an `expectations` section
(the scenario of `tests/test_models.py::
test_expectations_does_not_exist_after_v3`). -/
def expectationsV4Doc : RawPipeline :=
  { version := some 4,
    expectations := .present 10,
    actions := [("action1",
      { config := none,
        run := "test:latest",
        needs := [],
        outputs := { highly_sensitive := none,
                     moderately_sensitive := some [("dataset", "output.csv")],
                     minimally_sensitive := none },
        dummy_data_file := none })] }

/-- A document whose `needs` lists form a two-cycle plus a
self-dependency; every entry names an existing action. -/
def cyclicNeedsDoc : RawPipeline :=
  { version := some 1,
    expectations := .absent,
    actions := [
      ("action_a",
        { config := none, run := "python:latest a.py", needs := ["action_b"],
          outputs := { highly_sensitive := some [("a", "output/a.csv")],
                       moderately_sensitive := none, minimally_sensitive := none },
          dummy_data_file := none }),
      ("action_b",
        { config := none, run := "python:latest b.py", needs := ["action_a"],
          outputs := { highly_sensitive := some [("b", "output/b.csv")],
                       moderately_sensitive := none, minimally_sensitive := none },
          dummy_data_file := none }),
      ("action_c",
        { config := none, run := "python:latest c.py", needs := ["action_c"],
          outputs := { highly_sensitive := some [("c", "output/c.csv")],
                       moderately_sensitive := none, minimally_sensitive := none },
          dummy_data_file := none })] }

/-- A single action that lists itself in `needs`. -/
def selfNeedActions : List (String × Action) :=
  [("action1",
    { config := none, run := ⟨"test:latest"⟩, needs := ["action1"],
      outputs := { highly_sensitive := none,
                   moderately_sensitive := some [("cohort", "output.csv")],
                   minimally_sensitive := none },
      dummy_data_file := none })]

/-- A version-2 pipeline declaring the same output path twice in one
tier (the scenario of `tests/test_models.py::
test_outputs_files_are_unique`). -/
def dupOutputsPipeline : Pipeline :=
  { version := 2,
    expectations := ⟨1000⟩,
    actions := [("generate_cohort",
      { config := none, run := ⟨"cohortextractor:latest generate_cohort"⟩, needs := [],
        outputs := { highly_sensitive := some [("cohort", "output/input.csv"),
                                               ("test", "output/input.csv")],
                     moderately_sensitive := none, minimally_sensitive := none },
        dummy_data_file := none })] }

/-- Two actions with byte-identical run commands (the scenario of
`tests/test_models.py::test_pipeline_with_duplicated_action_run_commands`). -/
def dupCommandsActions : List (String × Action) :=
  [("action1",
    { config := none, run := ⟨"test:latest"⟩, needs := [],
      outputs := { highly_sensitive := none,
                   moderately_sensitive := some [("cohort", "output.csv")],
                   minimally_sensitive := none },
      dummy_data_file := none }),
   ("action2",
    { config := none, run := ⟨"test:latest"⟩, needs := [],
      outputs := { highly_sensitive := none,
                   moderately_sensitive := some [("cohort", "output.csv")],
                   minimally_sensitive := none },
      dummy_data_file := none })]

end models

namespace legacy

/-- A recognized extraction action declaring two output files inside a
single sensitivity tier. -/
def oneGroupTwoFilesAction : ProjAction :=
  { run := "cohortextractor:latest generate_cohort",
    needs := [],
    outputs := [("highly_sensitive", [("a", "output/1.csv"), ("b", "output/2.csv")])] }

def oneGroupTwoFilesProject : Project :=
  ⟨[("generate_cohort", oneGroupTwoFilesAction)]⟩

/-- A recognized extraction action declaring one output file in each of
two sensitivity tiers (the scenario of `tests/test_legacy.py::
test_validate_project_and_set_defaults_generate_cohort_has_only_one_output`). -/
def twoGroupsProject : Project :=
  ⟨[("generate_cohort",
    { run := "cohortextractor:latest generate_cohort",
      needs := [],
      outputs := [("highly_sensitive", [("cohort", "output/input.csv")]),
                  ("moderately_sensitive", [("cohort2", "output/input2.csv")])] })]⟩

/-- The per-action property `validate_project_and_set_defaults`
enforces, stated over the tokenization of the serialized run command:
a recognized extraction command must have exactly one populated
sensitivity tier. -/
def actionHasOneOutputGroup (x : String × ProjAction) : Prop :=
  is_generate_cohort_command ((shlex_split x.2.run).toOption.getD []) none = true →
    x.2.outputs.length = 1

instance (x : String × ProjAction) : Decidable (actionHasOneOutputGroup x) := by
  unfold actionHasOneOutputGroup; infer_instance

end legacy

/-! ## Theorems

First the splitting lemmas relating `splitc` to `takeWhile`/`dropWhile`,
then one theorem (plus witness/counterexample where required) per
specification claim. -/

theorem splitc_fst (sep : Char) (l : List Char) :
    (splitc sep l).1 = l.takeWhile fun c => !(c = sep) := by
  induction l with
  | nil => rfl
  | cons c cs ih =>
    by_cases h : c = sep <;> simp [splitc, h, List.takeWhile_cons, ih]

theorem splitc_snd_of_not_mem (sep : Char) (l : List Char) (h : sep ∉ l) :
    (splitc sep l).2 = [] := by
  induction l with
  | nil => rfl
  | cons c cs ih =>
    have hc : ¬(c = sep) := fun hcs => h (hcs ▸ List.mem_cons_self c cs)
    have h' : sep ∉ cs := fun hm => h (List.mem_cons_of_mem c hm)
    simp [splitc, hc, ih h']

theorem splitc_snd_of_mem (sep : Char) (l : List Char) (h : sep ∈ l) :
    (splitc sep l).2 =
      (splitc sep ((l.dropWhile fun c => !(c = sep)).drop 1)).1 ::
        (splitc sep ((l.dropWhile fun c => !(c = sep)).drop 1)).2 := by
  induction l with
  | nil => cases h
  | cons c cs ih =>
    by_cases hc : c = sep
    · subst hc
      simp [splitc, List.dropWhile_cons]
    · have h' : sep ∈ cs := by
        rcases List.mem_cons.mp h with h0 | h0
        · exact absurd h0.symm hc
        · exact h0
      simp [splitc, hc, List.dropWhile_cons, ih h']

/-- Claim C7 (amended): for a command whose raw string tokenizes to a
non-empty token list, `parts` is the full token list, `name` is the
part of the first token before its first colon, `args` joins the
remaining tokens with single spaces, and `version` is the second
colon-separated field of the first token — the text strictly between
the first colon and the next colon or the end (not everything after the
first colon) — and is undefined when the first token has no colon. -/
theorem command_derived_properties_spec (c : models.Command) (t : String)
    (ts : List String) (h : c.parts = Except.ok (t :: ts)) :
    c.name = some ⟨t.toList.takeWhile fun ch => !(ch = ':')⟩
    ∧ (':' ∈ t.toList → c.version =
        some ⟨((t.toList.dropWhile fun ch => !(ch = ':')).drop 1).takeWhile
          fun ch => !(ch = ':')⟩)
    ∧ (':' ∉ t.toList → c.version = none)
    ∧ c.args = some (String.intercalate " " ts)
    ∧ c.parts = Except.ok (t :: ts) := by
  have hs : shlex_split c.raw = Except.ok (t :: ts) := h
  refine ⟨?_, ?_, ?_, ?_, h⟩
  · simp [models.Command.name, hs, splitc_fst]
  · intro hc
    have hc' : ':' ∈ t.data := hc
    simp [models.Command.version, hs, splitc_snd_of_mem ':' t.data hc', splitc_fst,
      String.toList]
  · intro hc
    have hc' : ':' ∉ t.data := hc
    simp [models.Command.version, hs, splitc_snd_of_not_mem ':' t.data hc']
  · simp [models.Command.args, hs]

theorem command_derived_properties_spec_witness :
    (models.Command.mk "python:v2 run.py").name = some "python"
    ∧ (models.Command.mk "python:v2 run.py").version = some "v2"
    ∧ (models.Command.mk "python:v2 run.py").args = some "run.py" := by
  obtain ⟨h1, h2, -, h4, -⟩ :=
    command_derived_properties_spec (models.Command.mk "python:v2 run.py")
      "python:v2" ["run.py"] rfl
  exact ⟨h1.trans (by decide), (h2 (by decide)).trans (by decide), h4.trans (by decide)⟩

/-- Claim C7, counterexample to the claim as stated: for the raw string
`a:b:c` (first token with two colons), `version` is `b`, not the
substring `b:c` after the first colon. -/
theorem command_version_second_field_counterexample :
    (models.Command.mk "a:b:c").parts = Except.ok ["a:b:c"]
    ∧ (models.Command.mk "a:b:c").version = some "b"
    ∧ (⟨("a:b:c".toList.dropWhile fun ch => !(ch = ':')).drop 1⟩ : String) = "b:c"
    ∧ some ("b" : String) ≠ some ("b:c" : String) :=
  ⟨rfl, rfl, rfl, by decide⟩

/-- Claim C8: two `Command`s are equal iff their raw strings are
byte-identical; the hash is a function of the raw string (so commands
work as map/set keys); raw strings that differ only in formatting give
unequal commands even when they tokenize identically. -/
theorem command_equality_raw_spec (c₁ c₂ : models.Command) :
    (c₁ = c₂ ↔ c₁.raw = c₂.raw)
    ∧ (c₁.raw = c₂.raw → c₁.hashValue = c₂.hashValue)
    ∧ models.Command.mk "a:v  b" ≠ models.Command.mk "a:v b"
    ∧ (models.Command.mk "a:v  b").parts = (models.Command.mk "a:v b").parts := by
  refine ⟨?_, ?_, by decide, rfl⟩
  · cases c₁; cases c₂; simp
  · intro h; simp [models.Command.hashValue, h]

theorem command_equality_raw_spec_witness :
    models.Command.mk "r:v1" = models.Command.mk "r:v1"
    ∧ (models.Command.mk "r:v1").hashValue = (models.Command.mk "r:v1").hashValue :=
  ⟨(command_equality_raw_spec (models.Command.mk "r:v1") (models.Command.mk "r:v1")).1.mpr rfl,
   (command_equality_raw_spec (models.Command.mk "r:v1") (models.Command.mk "r:v1")).2.1 rfl⟩

/-- The sequential checker agrees with the ordered rule table: the
result of `assert_valid_glob_pattern` is exactly the reason of the
first violated rule, and acceptance iff no rule is violated. -/
theorem assert_valid_glob_pattern_eq_firstGlobViolation (p : String) :
    assert_valid_glob_pattern p =
      (match firstGlobViolation p with
        | some r => Except.error r
        | none => Except.ok ()) := by
  by_cases h1 : containsBackslash p
  · simp [assert_valid_glob_pattern, firstGlobViolation, globRules, h1]
  · by_cases h2 : strContains p "**"
    · simp [assert_valid_glob_pattern, firstGlobViolation, globRules, h1, h2,
        containsDoubleStar]
    · by_cases h3 : strContains p "?"
      · simp [assert_valid_glob_pattern, firstGlobViolation, globRules, h1, h2, h3,
          containsDoubleStar, containsQuestionMark]
      · by_cases h4 : strContains p "["
        · simp [assert_valid_glob_pattern, firstGlobViolation, globRules, h1, h2, h3, h4,
            containsDoubleStar, containsQuestionMark, containsOpenBracket]
        · by_cases h5 : endsWithSlash p
          · simp [assert_valid_glob_pattern, firstGlobViolation, globRules, h1, h2, h3,
              h4, h5, containsDoubleStar, containsQuestionMark, containsOpenBracket]
          · by_cases h6 : notInNormalForm p
            · simp [assert_valid_glob_pattern, firstGlobViolation, globRules, h1, h2, h3,
                h4, h5, h6, containsDoubleStar, containsQuestionMark, containsOpenBracket]
            · by_cases h7 : isMetadataPath p
              · simp [assert_valid_glob_pattern, firstGlobViolation, globRules, h1, h2,
                  h3, h4, h5, h6, h7, containsDoubleStar, containsQuestionMark,
                  containsOpenBracket]
              · by_cases h8 : isAbsolutePath p <;>
                  simp [assert_valid_glob_pattern, firstGlobViolation, globRules, h1, h2,
                    h3, h4, h5, h6, h7, h8, containsDoubleStar, containsQuestionMark,
                    containsOpenBracket]

/-- Claim C6 (amended): every pattern containing a backslash, a `**`
token, a `?`, a `[`, a doubled separator or a removable `..` segment
(i.e. a pattern differing from its POSIX-normalized form; a pattern
made only of leading `..` segments survives normalization and is
accepted), a trailing `/`, or that is absolute under POSIX or Windows
conventions, is rejected with a reason specific to the violated rule;
the rules are checked in the fixed order backslash, unsupported
wildcards (`**`, `?`, `[`), trailing separator, normal form, metadata
directory, absolute path, and the first violated rule in that order
determines the reported reason. -/
theorem assert_valid_glob_pattern_first_rule_spec (p : String) :
    (globTrigger p = true → ∃ r, assert_valid_glob_pattern p = Except.error r)
    ∧ (∀ r, assert_valid_glob_pattern p = Except.error r ↔ firstGlobViolation p = some r)
    ∧ (assert_valid_glob_pattern p = Except.ok () ↔ firstGlobViolation p = none) := by
  refine ⟨?_, ?_, ?_⟩
  · intro htr
    rw [assert_valid_glob_pattern_eq_firstGlobViolation]
    cases hfv : firstGlobViolation p with
    | some r => exact ⟨r, rfl⟩
    | none =>
      exfalso
      have hnone : globRules.find? (fun rule => rule.1 p) = none := by
        simpa [firstGlobViolation] using hfv
      have hall := List.find?_eq_none.mp hnone
      have hb := hall ⟨containsBackslash, fun _ => backslashMsg⟩ (by simp [globRules])
      have hd := hall ⟨containsDoubleStar, fun _ => wildcardMsg "**"⟩ (by simp [globRules])
      have hq := hall ⟨containsQuestionMark, fun _ => wildcardMsg "?"⟩ (by simp [globRules])
      have ho := hall ⟨containsOpenBracket, fun _ => wildcardMsg "["⟩ (by simp [globRules])
      have he := hall ⟨endsWithSlash, fun _ => trailingSlashMsg⟩ (by simp [globRules])
      have hn := hall ⟨notInNormalForm, fun _ => normalFormMsg⟩ (by simp [globRules])
      have ha := hall ⟨isAbsolutePath, fun _ => absolutePathMsg⟩ (by simp [globRules])
      simp only [globTrigger, Bool.or_eq_true] at htr
      rcases htr with ((((((t | t) | t) | t) | t) | t) | t) <;> simp_all
  · intro r
    rw [assert_valid_glob_pattern_eq_firstGlobViolation]
    cases hfv : firstGlobViolation p <;> simp
  · rw [assert_valid_glob_pattern_eq_firstGlobViolation]
    cases hfv : firstGlobViolation p <;> simp

theorem assert_valid_glob_pattern_first_rule_spec_witness :
    ∃ r, assert_valid_glob_pattern "a//b" = Except.error r :=
  (assert_valid_glob_pattern_first_rule_spec "a//b").1 (by decide)

/-- Claim C6, counterexample to the claim as stated: `../file.csv`
contains a `..` segment, yet the validator accepts it (it is its own
POSIX normalization, so the normal-form check passes, and no other rule
fires). -/
theorem assert_valid_glob_pattern_accepts_parent_segment :
    ("..".toList ∈
      (splitc '/' "../file.csv".toList).1 :: (splitc '/' "../file.csv".toList).2)
    ∧ assert_valid_glob_pattern "../file.csv" = Except.ok () :=
  ⟨by decide, rfl⟩

/-- Claim C9 (amended): a pattern that is the reserved metadata
directory itself or lies under it at the top level (`metadata` or
`metadata/...`) and violates none of the earlier-ordered rules is
rejected with the metadata reason.  Nesting at greater depth is not
detected (see the counterexample). -/
theorem assert_valid_glob_pattern_metadata_spec (p : String)
    (hm : isMetadataPath p = true)
    (h1 : containsBackslash p = false) (h2 : containsDoubleStar p = false)
    (h3 : containsQuestionMark p = false) (h4 : containsOpenBracket p = false)
    (h5 : endsWithSlash p = false) (h6 : notInNormalForm p = false) :
    assert_valid_glob_pattern p = Except.error metadataMsg := by
  have h2' : strContains p "**" = false := h2
  have h3' : strContains p "?" = false := h3
  have h4' : strContains p "[" = false := h4
  simp [assert_valid_glob_pattern, h1, h2', h3', h4', h5, h6, hm]

theorem assert_valid_glob_pattern_metadata_spec_witness :
    assert_valid_glob_pattern "metadata/out.csv" = Except.error metadataMsg :=
  assert_valid_glob_pattern_metadata_spec "metadata/out.csv" (by decide) (by decide)
    (by decide) (by decide) (by decide) (by decide) (by decide)

/-- Claim C9, counterexample to the claim as stated: a file nested
under a directory named `metadata` at depth one is accepted by the
validator, because the check compares only against the literal prefix
`metadata/`. -/
theorem assert_valid_glob_pattern_accepts_nested_metadata :
    ("metadata".toList ∈
      (splitc '/' "results/metadata/out.csv".toList).1 ::
        (splitc '/' "results/metadata/out.csv".toList).2)
    ∧ isMetadataPath "results/metadata/out.csv" = false
    ∧ assert_valid_glob_pattern "results/metadata/out.csv" = Except.ok () :=
  ⟨by decide, by decide, rfl⟩

theorem nodup_append_singleton {seen : List String} {f : String} (h : seen.Nodup)
    (hf : f ∉ seen) : (seen ++ [f]).Nodup :=
  List.nodup_append.mpr ⟨h, List.nodup_singleton f,
    fun _ ha hb => hf ((List.mem_singleton.mp hb) ▸ ha)⟩

theorem seenFilesGo_ok_iff (files seen : List String) (h : seen.Nodup) :
    models.seenFilesGo files seen = Except.ok () ↔ (seen ++ files).Nodup := by
  induction files generalizing seen with
  | nil => exact iff_of_true (by simp [models.seenFilesGo]) (by simpa using h)
  | cons f fs ih =>
    by_cases hf : f ∈ seen
    · refine iff_of_false (by simp [models.seenFilesGo, hf]) fun hnd => ?_
      rcases List.nodup_append.mp hnd with ⟨-, -, hdisj⟩
      exact hdisj hf (List.mem_cons_self f fs)
    · have step : models.seenFilesGo (f :: fs) seen = models.seenFilesGo fs (seen ++ [f]) := by
        simp [models.seenFilesGo, hf]
      rw [step, ih (seen ++ [f]) (nodup_append_singleton h hf), List.append_assoc]
      rfl

theorem seenFilesGo_error_of_dup (files seen : List String) (h : seen.Nodup)
    (herr : ¬(seen ++ files).Nodup) :
    ∃ f, models.seenFilesGo files seen =
        Except.error ("Output path " ++ f ++ " is not unique")
      ∧ f ∈ files ∧ (f ∈ seen ∨ 2 ≤ files.count f) := by
  induction files generalizing seen with
  | nil => exact absurd (by simpa using h) herr
  | cons f fs ih =>
    by_cases hf : f ∈ seen
    · exact ⟨f, by simp [models.seenFilesGo, hf], List.mem_cons_self f fs, Or.inl hf⟩
    · have step : models.seenFilesGo (f :: fs) seen = models.seenFilesGo fs (seen ++ [f]) := by
        simp [models.seenFilesGo, hf]
      have herr' : ¬((seen ++ [f]) ++ fs).Nodup := by
        rw [List.append_assoc]; exact herr
      obtain ⟨g, hgo, hgfs, hgor⟩ := ih (seen ++ [f]) (nodup_append_singleton h hf) herr'
      refine ⟨g, step ▸ hgo, List.mem_cons_of_mem f hgfs, ?_⟩
      rcases hgor with hg | hg
      · rcases List.mem_append.mp hg with hg2 | hg2
        · exact Or.inl hg2
        · have hgf : g = f := List.mem_singleton.mp hg2
          subst hgf
          have h1 : 0 < fs.count g := List.count_pos_iff.mpr hgfs
          have hcc : (g :: fs).count g = fs.count g + 1 := by simp [List.count_cons]
          exact Or.inr (by omega)
      · have hle : fs.count g ≤ (f :: fs).count g := by
          rw [List.count_cons]
          split <;> omega
        exact Or.inr (le_trans hg hle)


/-- Claim C1: for a pipeline whose (resolver-known) version is at or
above the output-uniqueness threshold (version 2), the version-gated
outputs check fails with an error naming the offending (duplicated)
path iff some output filename is declared twice anywhere in the
pipeline — across actions and sensitivity tiers, including twice within
one action; below the threshold the check never fails. -/
theorem validate_outputs_per_version_unique_spec (p : models.Pipeline)
    (h4 : p.version ≤ 4) :
    (2 ≤ p.version →
      ((∃ f, models.validate_outputs_per_version p =
          Except.error ("Output path " ++ f ++ " is not unique")
        ∧ 2 ≤ p.outputFiles.count f) ↔ ¬p.outputFiles.Nodup))
    ∧ (p.version < 2 → models.validate_outputs_per_version p = Except.ok p) := by
  have hres : features.get_feature_flags_for_version p.version =
      Except.ok ⟨decide (2 ≤ p.version), decide (3 ≤ p.version ∧ p.version < 4),
        decide (4 ≤ p.version)⟩ := by
    simp [features.get_feature_flags_for_version, features.LATEST_VERSION, not_lt.mpr h4]
  constructor
  · intro h2
    have hU : decide (2 ≤ p.version) = true := decide_eq_true h2
    constructor
    · rintro ⟨f, -, hcnt⟩ hnd
      have := List.nodup_iff_count_le_one.mp hnd f
      omega
    · intro hnd
      obtain ⟨f, hfo, -, hor⟩ :=
        seenFilesGo_error_of_dup p.outputFiles [] List.nodup_nil (by simpa using hnd)
      refine ⟨f, ?_, ?_⟩
      · simp [models.validate_outputs_per_version, hres, hU, hfo, Except.instMonad,
          Except.bind, Except.map, Except.pure]
      · rcases hor with hg | hg
        · simp at hg
        · exact hg
  · intro hlt
    have hU : decide (2 ≤ p.version) = false := decide_eq_false (not_le.mpr hlt)
    simp [models.validate_outputs_per_version, hres, hU, Except.instMonad,
      Except.bind, Except.map, Except.pure]

theorem validate_outputs_per_version_unique_spec_witness :
    (2 ≤ models.dupOutputsPipeline.version) ∧
    ∃ f, models.validate_outputs_per_version models.dupOutputsPipeline =
        Except.error ("Output path " ++ f ++ " is not unique")
      ∧ 2 ≤ models.dupOutputsPipeline.outputFiles.count f :=
  ⟨by norm_num [models.dupOutputsPipeline],
   ((validate_outputs_per_version_unique_spec models.dupOutputsPipeline
      (by norm_num [models.dupOutputsPipeline])).1
    (by norm_num [models.dupOutputsPipeline])).mpr (by decide)⟩

theorem uniqueCommandsGo_ok_iff (acts : List (String × models.Action))
    (processed : List (String × models.Action))
    (h : (processed.map fun x => x.2.run.raw).Nodup) :
    models.uniqueCommandsGo acts (processed.map fun x => (x.2.run.raw, [x.1])) =
        Except.ok () ↔
      ((processed ++ acts).map fun x => x.2.run.raw).Nodup := by
  induction acts generalizing processed with
  | nil => exact iff_of_true (by simp [models.uniqueCommandsGo]) (by simpa using h)
  | cons na rest ih =>
    obtain ⟨n₀, a₀⟩ := na
    by_cases hmem : a₀.run.raw ∈ processed.map fun x => x.2.run.raw
    · refine iff_of_false ?_ fun hnd => ?_
      · have hsome : ((processed.map fun x => (x.2.run.raw, [x.1])).find?
            fun bucket => bucket.1 = a₀.run.raw).isSome := by
          rw [List.find?_isSome]
          obtain ⟨x, hx, hxr⟩ := List.mem_map.mp hmem
          exact ⟨(x.2.run.raw, [x.1]), List.mem_map_of_mem _ hx, by simp [hxr]⟩
        obtain ⟨b, hb⟩ := Option.isSome_iff_exists.mp hsome
        simp [models.uniqueCommandsGo, hb]
      · have : ((processed.map fun x => x.2.run.raw) ++
            (a₀.run.raw :: rest.map fun x => x.2.run.raw)).Nodup := by
          simpa using hnd
        rcases List.nodup_append.mp this with ⟨-, -, hdisj⟩
        exact hdisj hmem (List.mem_cons_self _ _)
    · have hfind : ((processed.map fun x => (x.2.run.raw, [x.1])).find?
          fun bucket => bucket.1 = a₀.run.raw) = none := by
        apply List.find?_eq_none.mpr
        intro b hb
        obtain ⟨y, hy, hyeq⟩ := List.mem_map.mp hb
        simp [← hyeq]
        intro hc
        exact hmem (hc ▸ List.mem_map_of_mem (fun x => x.2.run.raw) hy)
      have step : models.uniqueCommandsGo ((n₀, a₀) :: rest)
            (processed.map fun x => (x.2.run.raw, [x.1])) =
          models.uniqueCommandsGo rest
            ((processed ++ [(n₀, a₀)]).map fun x => (x.2.run.raw, [x.1])) := by
        simp [models.uniqueCommandsGo, hfind]
      have h' : ((processed ++ [(n₀, a₀)]).map fun x => x.2.run.raw).Nodup := by
        rw [List.map_append]
        exact nodup_append_singleton h hmem
      rw [step, ih (processed ++ [(n₀, a₀)]) h', List.append_assoc]
      rfl

theorem uniqueCommandsGo_error_decomp (acts processed : List (String × models.Action))
    (h : (processed.map fun x => x.2.run.raw).Nodup)
    (herr : ¬((processed ++ acts).map fun x => x.2.run.raw).Nodup) :
    ∃ pre e eA mid n nA post,
      processed ++ acts = pre ++ (e, eA) :: mid ++ (n, nA) :: post ∧
      eA.run.raw = nA.run.raw ∧
      ((pre ++ (e, eA) :: mid).map fun x => x.2.run.raw).Nodup ∧
      models.uniqueCommandsGo acts (processed.map fun x => (x.2.run.raw, [x.1])) =
        Except.error ("Action " ++ n ++
          " has the same \x27run\x27 command as other actions: " ++ e) := by
  induction acts generalizing processed with
  | nil => exact absurd (by simpa using h) herr
  | cons na rest ih =>
    obtain ⟨n₀, a₀⟩ := na
    by_cases hmem : a₀.run.raw ∈ processed.map fun x => x.2.run.raw
    · rcases hfind : ((processed.map fun x => (x.2.run.raw, [x.1])).find?
          fun bucket => bucket.1 = a₀.run.raw) with - | bucket
      · exfalso
        obtain ⟨x, hx, hxr⟩ := List.mem_map.mp hmem
        have := List.find?_eq_none.mp hfind (x.2.run.raw, [x.1])
          (List.mem_map_of_mem _ hx)
        simp [hxr] at this
      · have hbmem := List.mem_of_find?_eq_some hfind
        have hbp : bucket.1 = a₀.run.raw := by
          simpa using List.find?_some hfind
        obtain ⟨y, hy, hyeq⟩ := List.mem_map.mp hbmem
        obtain ⟨e, eA⟩ := y
        subst hyeq
        obtain ⟨pre, mid, hsplit⟩ := List.append_of_mem hy
        refine ⟨pre, e, eA, mid, n₀, a₀, rest, ?_, ?_, ?_, ?_⟩
        · rw [hsplit]
        · simpa using hbp
        · rw [hsplit] at h
          exact h
        · simp only [models.uniqueCommandsGo, hfind]
          rfl
    · have hfind : ((processed.map fun x => (x.2.run.raw, [x.1])).find?
          fun bucket => bucket.1 = a₀.run.raw) = none := by
        apply List.find?_eq_none.mpr
        intro b hb
        obtain ⟨y, hy, hyeq⟩ := List.mem_map.mp hb
        simp [← hyeq]
        intro hc
        exact hmem (hc ▸ List.mem_map_of_mem (fun x => x.2.run.raw) hy)
      have step : models.uniqueCommandsGo ((n₀, a₀) :: rest)
            (processed.map fun x => (x.2.run.raw, [x.1])) =
          models.uniqueCommandsGo rest
            ((processed ++ [(n₀, a₀)]).map fun x => (x.2.run.raw, [x.1])) := by
        simp [models.uniqueCommandsGo, hfind]
      have h' : ((processed ++ [(n₀, a₀)]).map fun x => x.2.run.raw).Nodup := by
        rw [List.map_append]
        exact nodup_append_singleton h hmem
      have herr' : ¬(((processed ++ [(n₀, a₀)]) ++ rest).map fun x =>
          x.2.run.raw).Nodup := by
        rw [List.append_assoc]
        exact herr
      obtain ⟨pre, e, eA, mid, n, nA, post, hdec, hraw, hnd, herr2⟩ :=
        ih (processed ++ [(n₀, a₀)]) h' herr'
      refine ⟨pre, e, eA, mid, n, nA, post, ?_, hraw, hnd, step ▸ herr2⟩
      rw [← hdec, List.append_assoc]
      rfl

/-- Claim C4: the command-uniqueness check passes iff the raw run
strings of all actions are pairwise distinct; when two actions share a
byte-identical run string, it fails with a duplicate-command error
naming the later action (the first one, in mapping order, whose
command was already used) and the earlier action that first used that
command. -/
theorem validate_unique_commands_spec (acts : List (String × models.Action)) :
    (models.validate_unique_commands acts = Except.ok acts ↔
      (acts.map fun x => x.2.run.raw).Nodup)
    ∧ (¬(acts.map fun x => x.2.run.raw).Nodup →
      ∃ pre e eA mid n nA post,
        acts = pre ++ (e, eA) :: mid ++ (n, nA) :: post ∧
        eA.run.raw = nA.run.raw ∧
        ((pre ++ (e, eA) :: mid).map fun x => x.2.run.raw).Nodup ∧
        models.validate_unique_commands acts =
          Except.error ("Action " ++ n ++
            " has the same \x27run\x27 command as other actions: " ++ e)) := by
  have hok := uniqueCommandsGo_ok_iff acts [] (by simp)
  simp only [List.map_nil, List.nil_append] at hok
  constructor
  · constructor
    · intro hv
      apply hok.mp
      rcases hgo : models.uniqueCommandsGo acts [] with err | u
      · simp [models.validate_unique_commands, hgo, Except.map] at hv
      · rfl
    · intro hnd
      have hgo := hok.mpr hnd
      simp [models.validate_unique_commands, hgo, Except.map]
  · intro hnd
    obtain ⟨pre, e, eA, mid, n, nA, post, hdec, hraw, hnd2, herr2⟩ :=
      uniqueCommandsGo_error_decomp acts [] (by simp) (by simpa using hnd)
    simp only [List.nil_append] at hdec
    simp only [List.map_nil] at herr2
    exact ⟨pre, e, eA, mid, n, nA, post, hdec, hraw, hnd2,
      by simp [models.validate_unique_commands, herr2, Except.map]⟩

theorem validate_unique_commands_spec_witness :
    ∃ pre e eA mid n nA post,
      models.dupCommandsActions = pre ++ (e, eA) :: mid ++ (n, nA) :: post ∧
      eA.run.raw = nA.run.raw ∧
      ((pre ++ (e, eA) :: mid).map fun x => x.2.run.raw).Nodup ∧
      models.validate_unique_commands models.dupCommandsActions =
        Except.error ("Action " ++ n ++
          " has the same \x27run\x27 command as other actions: " ++ e) :=
  (validate_unique_commands_spec models.dupCommandsActions).2 (by decide)

theorem validateProjectGo_ok_iff (acts : List (String × legacy.ProjAction))
    (hsplit : ∀ x ∈ acts, (shlex_split x.2.run).isOk = true) :
    legacy.validateProjectGo acts = Except.ok () ↔
      ∀ x ∈ acts, legacy.actionHasOneOutputGroup x := by
  induction acts with
  | nil => simp [legacy.validateProjectGo]
  | cons x rest ih =>
    obtain ⟨id, ac⟩ := x
    obtain ⟨args, hargs⟩ : ∃ args, shlex_split ac.run = Except.ok args := by
      have hx := hsplit (id, ac) (List.mem_cons_self _ _)
      rcases h : shlex_split ac.run with e | args
      · rw [h] at hx; simp [Except.isOk, Except.toBool] at hx
      · exact ⟨args, rfl⟩
    have hone : legacy.actionHasOneOutputGroup (id, ac) ↔
        (legacy.is_generate_cohort_command args none = true → ac.outputs.length = 1) := by
      simp [legacy.actionHasOneOutputGroup, hargs, Except.toOption]
    by_cases hbad : legacy.is_generate_cohort_command args none = true ∧
        ac.outputs.length ≠ 1
    · refine iff_of_false ?_ fun hall => ?_
      · simp [legacy.validateProjectGo, hargs, hbad, Except.instMonad, Except.bind]
      · have := (hone.mp (hall (id, ac) (List.mem_cons_self _ _))) hbad.1
        exact hbad.2 this
    · have step : legacy.validateProjectGo ((id, ac) :: rest) =
          legacy.validateProjectGo rest := by
        simp [legacy.validateProjectGo, hargs, hbad, Except.instMonad, Except.bind]
      rw [step, ih fun y hy => hsplit y (List.mem_cons_of_mem _ hy)]
      constructor
      · intro hr z hz
        rcases List.mem_cons.mp hz with hz | hz
        · subst hz
          rw [hone]
          intro hg
          by_contra hne
          exact hbad ⟨hg, hne⟩
        · exact hr z hz
      · intro hall z hz
        exact hall z (List.mem_cons_of_mem _ hz)

theorem validateProjectGo_error (acts : List (String × legacy.ProjAction))
    (hsplit : ∀ x ∈ acts, (shlex_split x.2.run).isOk = true)
    (hx : ¬∀ x ∈ acts, legacy.actionHasOneOutputGroup x) :
    ∃ x ∈ acts, ∃ args, shlex_split x.2.run = Except.ok args ∧
      legacy.is_generate_cohort_command args none = true ∧ x.2.outputs.length ≠ 1 ∧
      legacy.validateProjectGo acts =
        Except.error ("A `generate_cohort` action must have exactly one output; "
          ++ x.1 ++ " had " ++ toString x.2.outputs.length) := by
  induction acts with
  | nil => exact absurd (by simp) hx
  | cons x rest ih =>
    obtain ⟨id, ac⟩ := x
    obtain ⟨args, hargs⟩ : ∃ args, shlex_split ac.run = Except.ok args := by
      have hx2 := hsplit (id, ac) (List.mem_cons_self _ _)
      rcases h : shlex_split ac.run with e | args
      · rw [h] at hx2; simp [Except.isOk, Except.toBool] at hx2
      · exact ⟨args, rfl⟩
    by_cases hbad : legacy.is_generate_cohort_command args none = true ∧
        ac.outputs.length ≠ 1
    · refine ⟨(id, ac), List.mem_cons_self _ _, args, hargs, hbad.1, hbad.2, ?_⟩
      simp [legacy.validateProjectGo, hargs, hbad, Except.instMonad, Except.bind]
    · have step : legacy.validateProjectGo ((id, ac) :: rest) =
          legacy.validateProjectGo rest := by
        simp [legacy.validateProjectGo, hargs, hbad, Except.instMonad, Except.bind]
      have hx' : ¬∀ x ∈ rest, legacy.actionHasOneOutputGroup x := by
        intro hall
        apply hx
        intro z hz
        rcases List.mem_cons.mp hz with hz | hz
        · subst hz
          simp [legacy.actionHasOneOutputGroup, hargs, Except.toOption]
          intro hg
          by_contra hne
          exact hbad ⟨hg, hne⟩
        · exact hall z hz
      obtain ⟨z, hz, zargs, hzargs, hzg, hzne, hzerr⟩ :=
        ih (fun y hy => hsplit y (List.mem_cons_of_mem _ hy)) hx'
      exact ⟨z, List.mem_cons_of_mem _ hz, zargs, hzargs, hzg, hzne, step ▸ hzerr⟩

/-- Claim C5 (amended): for a project whose serialized run commands all
tokenize, `validate_project_and_set_defaults` succeeds iff every action
recognized as a `generate_cohort`-family extraction command declares
exactly one populated sensitivity tier (the `len()` of the outputs
mapping counts populated tiers, not files); otherwise it fails naming
an offending action and its tier count. -/
theorem validate_project_one_output_group_spec (project : legacy.Project)
    (hsplit : ∀ x ∈ project.actions, (shlex_split x.2.run).isOk = true) :
    (legacy.validate_project_and_set_defaults project = Except.ok project ↔
      ∀ x ∈ project.actions, legacy.actionHasOneOutputGroup x)
    ∧ (¬(∀ x ∈ project.actions, legacy.actionHasOneOutputGroup x) →
      ∃ x ∈ project.actions, ∃ args, shlex_split x.2.run = Except.ok args ∧
        legacy.is_generate_cohort_command args none = true ∧ x.2.outputs.length ≠ 1 ∧
        legacy.validate_project_and_set_defaults project =
          Except.error ("A `generate_cohort` action must have exactly one output; "
            ++ x.1 ++ " had " ++ toString x.2.outputs.length)) := by
  constructor
  · rw [← validateProjectGo_ok_iff project.actions hsplit]
    constructor
    · intro hv
      rcases hgo : legacy.validateProjectGo project.actions with e | u
      · simp [legacy.validate_project_and_set_defaults, hgo, Except.map] at hv
      · rfl
    · intro hgo
      simp [legacy.validate_project_and_set_defaults, hgo, Except.map]
  · intro hx
    obtain ⟨z, hz, args, hargs, hg, hne, herr⟩ :=
      validateProjectGo_error project.actions hsplit hx
    exact ⟨z, hz, args, hargs, hg, hne,
      by simp [legacy.validate_project_and_set_defaults, herr, Except.map]⟩

theorem validate_project_one_output_group_spec_witness :
    ∃ x ∈ legacy.twoGroupsProject.actions, ∃ args,
      shlex_split x.2.run = Except.ok args ∧
      legacy.is_generate_cohort_command args none = true ∧ x.2.outputs.length ≠ 1 ∧
      legacy.validate_project_and_set_defaults legacy.twoGroupsProject =
        Except.error ("A `generate_cohort` action must have exactly one output; "
          ++ x.1 ++ " had " ++ toString x.2.outputs.length) :=
  (validate_project_one_output_group_spec legacy.twoGroupsProject (by decide)).2
    (by decide)

/-- Claim C5, counterexample to the claim as stated: an extraction
action declaring two output files inside a single sensitivity tier
(total file count 2) passes the check, because the code counts
populated tiers, not files. -/
theorem generate_cohort_two_files_one_group_accepted :
    legacy.is_generate_cohort_command ["cohortextractor:latest", "generate_cohort"]
        none = true
    ∧ shlex_split legacy.oneGroupTwoFilesAction.run =
        Except.ok ["cohortextractor:latest", "generate_cohort"]
    ∧ legacy.oneGroupTwoFilesAction.totalOutputFiles = 2
    ∧ legacy.validate_project_and_set_defaults legacy.oneGroupTwoFilesProject =
        Except.ok legacy.oneGroupTwoFilesProject :=
  ⟨by decide, rfl, by decide, rfl⟩

/-- Claim C10: the unknown-dependency check passes exactly when every
`needs` entry is a key of the action mapping; no acyclicity is
required, and a document whose dependencies form a cycle and contain a
self-dependency constructs successfully. -/
theorem validate_needs_exist_spec :
    (∀ acts : List (String × models.Action),
      models.validate_needs_exist acts = Except.ok acts ↔
        ∀ x ∈ acts, ∀ dep ∈ x.2.needs, ∃ y ∈ acts, y.1 = dep)
    ∧ (models.buildPipeline models.cyclicNeedsDoc).isOk = true := by
  constructor
  · intro acts
    have hmiss : (acts.filterMap fun x =>
        let unknown := (x.2.needs.filter fun dep =>
          !(acts.any fun y => y.1 = dep)).dedup
        if unknown ≠ [] then some (x.1, unknown) else none) = [] ↔
        ∀ x ∈ acts, ∀ dep ∈ x.2.needs, ∃ y ∈ acts, y.1 = dep := by
      rw [List.filterMap_eq_nil_iff]
      constructor
      · intro hall x hx dep hdep
        have hdd := hall x hx
        by_cases hd : ((x.2.needs.filter fun dep =>
            !(acts.any fun y => y.1 = dep)).dedup) = []
        · have hfil := (List.dedup_eq_nil _).mp hd
          have h2 := List.filter_eq_nil_iff.mp hfil dep hdep
          simpa using h2
        · simp only [hd, ne_eq, not_false_iff, if_true] at hdd
          cases hdd
      · intro hall x hx
        have hfil : (x.2.needs.filter fun dep =>
            !(acts.any fun y => y.1 = dep)) = [] := by
          apply List.filter_eq_nil_iff.mpr
          intro dep hdep
          simpa using hall x hx dep hdep
        simp [hfil]
    by_cases hR : ∀ x ∈ acts, ∀ dep ∈ x.2.needs, ∃ y ∈ acts, y.1 = dep
    · refine iff_of_true ?_ hR
      have hm := hmiss.mpr hR
      simp only [models.validate_needs_exist]
      rw [if_pos hm]
    · refine iff_of_false (fun hv => ?_) hR
      have hm : ¬((acts.filterMap fun x =>
          let unknown := (x.2.needs.filter fun dep =>
            !(acts.any fun y => y.1 = dep)).dedup
          if unknown ≠ [] then some (x.1, unknown) else none) = []) :=
        fun h => hR (hmiss.mp h)
      simp only [models.validate_needs_exist] at hv
      rw [if_neg hm] at hv
      cases hv
  · rfl

theorem validate_needs_exist_spec_witness :
    models.validate_needs_exist models.selfNeedActions =
      Except.ok models.selfNeedActions :=
  (validate_needs_exist_spec.1 models.selfNeedActions).mpr (by decide)

/-- Claim C2 (code evidence): a version-4 document whose action runs
the legacy extraction tool constructs successfully — no validator in
`pipeline/models.py` rejects `cohortextractor` actions at any version,
although the command matches `cohortextractor_pat` and the tests of
the repository require this document to fail. -/
theorem buildPipeline_accepts_cohortextractor_at_v4 :
    models.cohortextractor_pat "cohortextractor:latest generate_cohort" = true
    ∧ models.cohortextractorV4Doc.version = some 4
    ∧ (models.buildPipeline models.cohortextractorV4Doc).isOk = true :=
  ⟨by decide, rfl, rfl⟩

/-- Claim C3 (code evidence): a version-4 document that still carries
an `expectations` section constructs successfully — the validator
silently replaces the section with the default population size 1000
instead of rejecting it, although the tests of the repository require the
presence of the section to fail at version 4. -/
theorem buildPipeline_accepts_expectations_section_at_v4 :
    models.expectationsV4Doc.expectations = models.ExpSection.present 10
    ∧ ∃ p, models.buildPipeline models.expectationsV4Doc = Except.ok p
      ∧ p.expectations.population_size = 1000 := by
  refine ⟨rfl, ⟨4, ⟨1000⟩,
    [("action1", ⟨none, ⟨"test:latest"⟩, [],
      ⟨none, some [("dataset", "output.csv")], none⟩, none⟩)]⟩, rfl, rfl⟩
